import Mathlib

/-!
Verification of the `clickhouse-readonly` ClickHouse client against its
specification.

Each Rust source function relevant to the claims is shallowly embedded as
a Lean definition: machine integers are modelled as `Nat` (or `Int`) with
explicit `% 2^w` where overflow matters, byte strings as `List Nat`, and
fallible operations return sum types.  Definitions keep the source names
where Lean allows it.
-/

namespace CHReadonly

/-! ## Varint codec

Embedding of `put_uvarint` (src/binary/uvarint.rs) and
`ReadEx::read_uvarint` (src/binary/read_ex.rs).  Byte streams are finite
lists of bytes; exhausting the stream mid-read models `read_bytes`
observing `Ok(0)` from the reader and returning its `WouldBlock` I/O
error.  A left shift by 64 or more positions overflows the `u64` shift in
`x |= u64::from(b & 0x7f) << s` (a panic in debug builds; release builds
mask the shift count) and is modelled by a dedicated `panicked` outcome;
a shift by at most 63 positions silently truncates the value modulo
`2^64`, exactly as `u64` arithmetic does. -/

/-- Rust: `put_uvarint(buffer, x)`.  Writes `mx as u8 | 0x80` while
`mx >= 0x80`, then the final low byte; the returned list is the written
prefix of the buffer, so its length is the value the Rust function
returns. -/
def put_uvarint (x : Nat) : List Nat :=
  if x < 0x80 then [x]
  else ((x % 256) ||| 0x80) :: put_uvarint (x >>> 7)
  termination_by x
  decreasing_by
    simp only [Nat.shiftRight_eq_div_pow]
    omega

/-- Outcome of `read_uvarint` on a byte stream. -/
inductive UvarintResult where
  | ok (value : Nat) (rest : List Nat)
  | overflow
  | ioError
  | panicked
  deriving DecidableEq

/-- Rust: the loop body of `ReadEx::read_uvarint`, with accumulator `x`,
shift `s` and byte counter `i`. -/
def read_uvarint_loop : List Nat → Nat → Nat → Nat → UvarintResult
  | [], _, _, _ => .ioError
  | b :: rest, x, s, i =>
    if b < 0x80 then
      if i > 9 ∨ (i = 9 ∧ b > 1) then .overflow
      else .ok (x ||| ((b <<< s) % 2 ^ 64)) rest
    else if 64 ≤ s then .panicked
    else read_uvarint_loop rest (x ||| (((b &&& 0x7f) <<< s) % 2 ^ 64)) (s + 7) (i + 1)

/-- Rust: `ReadEx::read_uvarint`. -/
def read_uvarint (input : List Nat) : UvarintResult :=
  read_uvarint_loop input 0 0 0

lemma or_mul_two_pow_eq_add {x y s : Nat} (hx : x < 2 ^ s) :
    x ||| y * 2 ^ s = y * 2 ^ s + x := by
  rw [Nat.or_comm, Nat.mul_comm]
  exact (Nat.mul_add_lt_is_or hx y).symm

lemma le_or_right (a b : Nat) (h : b.testBit 7 = true) : 2 ^ 7 ≤ a ||| b := by
  refine Nat.testBit_implies_ge (i := 7) ?_
  simp [Nat.testBit_or, h]

lemma byte_or_128_ge (a : Nat) : 2 ^ 7 ≤ a ||| 0x80 :=
  le_or_right a 0x80 (by decide)

lemma or_128_and_127 (n : Nat) : ((n % 256) ||| 0x80) &&& 0x7f = n % 0x80 := by
  have hd : ((n % 256) ||| 0x80) &&& 0x7f = (0x7f &&& (n % 256)) ||| (0x7f &&& 0x80) := by
    rw [Nat.and_comm, Nat.and_or_distrib_left]
  rw [hd]
  have h2 : 0x7f &&& (n % 256) = n % 256 % 0x80 := by
    rw [Nat.and_comm]
    have := Nat.and_pow_two_sub_one_eq_mod (n % 256) 7
    simpa using this
  have h1 : (0x7f : Nat) &&& 0x80 = 0 := by decide
  rw [h2, h1, Nat.or_zero, Nat.mod_mod_of_dvd n (by norm_num : (0x80 : Nat) ∣ 256)]

lemma read_loop_put (n : Nat) : ∀ x s i rest, s = 7 * i → i ≤ 9 →
    n < 2 ^ (64 - s) → x < 2 ^ s →
    read_uvarint_loop (put_uvarint n ++ rest) x s i = .ok (x ||| n <<< s) rest := by
  induction n using put_uvarint.induct with
  | case1 n h =>
    intro x s i rest hs hi hn hx
    rw [put_uvarint, if_pos h, List.cons_append, List.nil_append, read_uvarint_loop]
    rw [if_pos h, if_neg ?hneg]
    case hneg =>
      rintro (h9 | ⟨h9, hb⟩)
      · omega
      · subst h9; subst hs
        have : n < 2 := by simpa using hn
        omega
    have hlt : n <<< s < 2 ^ 64 := by
      rw [Nat.shiftLeft_eq]
      calc n * 2 ^ s < 2 ^ (64 - s) * 2 ^ s := by
            exact Nat.mul_lt_mul_of_lt_of_le hn (le_refl _) (Nat.two_pow_pos s)
        _ ≤ 2 ^ 64 := by
            rw [← Nat.pow_add]
            exact Nat.pow_le_pow_right (by norm_num) (by omega)
    rw [Nat.mod_eq_of_lt hlt]
  | case2 n h ih =>
    intro x s i rest hs hi hn hx
    have h128 : 2 ^ 7 ≤ n := by omega
    have hslt : s ≤ 56 := by
      by_contra hc
      have h64s : 64 - s ≤ 7 := by omega
      have : n < 2 ^ 7 :=
        lt_of_lt_of_le hn (Nat.pow_le_pow_right (by norm_num) h64s)
      omega
    rw [put_uvarint, if_neg h, List.cons_append, read_uvarint_loop]
    rw [if_neg (by have := byte_or_128_ge (n % 256); omega), if_neg (by omega)]
    rw [or_128_and_127]
    have hmask : ((n % 0x80) <<< s) % 2 ^ 64 = (n % 0x80) <<< s := by
      apply Nat.mod_eq_of_lt
      rw [Nat.shiftLeft_eq]
      calc (n % 0x80) * 2 ^ s < 2 ^ 7 * 2 ^ s := by
            exact Nat.mul_lt_mul_of_lt_of_le (Nat.mod_lt _ (by norm_num)) (le_refl _)
              (Nat.two_pow_pos s)
        _ = 2 ^ (7 + s) := by rw [Nat.pow_add]
        _ ≤ 2 ^ 64 := Nat.pow_le_pow_right (by norm_num) (by omega)
    rw [hmask]
    have hx' : x ||| (n % 0x80) <<< s < 2 ^ (s + 7) := by
      rw [Nat.shiftLeft_eq, or_mul_two_pow_eq_add hx]
      have : n % 0x80 ≤ 0x7f := by omega
      calc (n % 0x80) * 2 ^ s + x < (n % 0x80) * 2 ^ s + 2 ^ s := by omega
        _ = (n % 0x80 + 1) * 2 ^ s := by ring
        _ ≤ 0x80 * 2 ^ s := Nat.mul_le_mul_right _ (by omega)
        _ = 2 ^ (s + 7) := by rw [Nat.pow_add]; ring
    have hn' : n >>> 7 < 2 ^ (64 - (s + 7)) := by
      rw [Nat.shiftRight_eq_div_pow]
      rw [Nat.div_lt_iff_lt_mul (Nat.two_pow_pos 7)]
      calc n < 2 ^ (64 - s) := hn
        _ = 2 ^ (64 - (s + 7)) * 2 ^ 7 := by
            rw [← Nat.pow_add]
            congr 1
            omega
    have := ih (x ||| (n % 0x80) <<< s) (s + 7) (i + 1) rest (by omega) (by omega) hn' hx'
    rw [this]
    congr 1
    rw [Nat.shiftLeft_eq, Nat.shiftLeft_eq, Nat.shiftLeft_eq]
    have hadd1 : x ||| n % 0x80 * 2 ^ s = n % 0x80 * 2 ^ s + x :=
      or_mul_two_pow_eq_add hx
    rw [hadd1]
    have hlt2 : n % 0x80 * 2 ^ s + x < 2 ^ (s + 7) := by
      rw [← hadd1, ← Nat.shiftLeft_eq]
      exact hx'
    rw [or_mul_two_pow_eq_add (s := s + 7) hlt2, or_mul_two_pow_eq_add hx]
    have hsplit : n = 0x80 * (n >>> 7) + n % 0x80 := by
      rw [Nat.shiftRight_eq_div_pow]
      have h7 : (2 : Nat) ^ 7 = 0x80 := by norm_num
      rw [h7]
      omega
    calc (n >>> 7) * 2 ^ (s + 7) + (n % 0x80 * 2 ^ s + x)
        = (0x80 * (n >>> 7) + n % 0x80) * 2 ^ s + x := by
          rw [Nat.pow_add]; ring
      _ = n * 2 ^ s + x := by rw [← hsplit]

lemma put_uvarint_length (n : Nat) :
    (put_uvarint n).length = max 1 ((Nat.size n + 6) / 7) := by
  induction n using put_uvarint.induct with
  | case1 n hlt =>
    rw [put_uvarint, if_pos hlt]
    have hs : Nat.size n ≤ 7 := Nat.size_le.2 (by norm_num; omega)
    simp
    omega
  | case2 n hlt ih =>
    rw [put_uvarint, if_neg hlt]
    have h8 : 8 ≤ Nat.size n := by
      have : 7 < Nat.size n := Nat.lt_size.2 (by norm_num; omega)
      omega
    have hsize : Nat.size (n >>> 7) = Nat.size n - 7 := by
      apply le_antisymm
      · apply Nat.size_le.2
        rw [Nat.shiftRight_eq_div_pow, Nat.div_lt_iff_lt_mul (Nat.two_pow_pos 7),
            ← Nat.pow_add]
        have he : Nat.size n - 7 + 7 = Nat.size n := by omega
        rw [he]
        exact Nat.lt_size_self n
      · have : Nat.size n - 8 < Nat.size (n >>> 7) := by
          apply Nat.lt_size.2
          rw [Nat.shiftRight_eq_div_pow, Nat.le_div_iff_mul_le (Nat.two_pow_pos 7),
              ← Nat.pow_add]
          have he : Nat.size n - 8 + 7 = Nat.size n - 1 := by omega
          rw [he]
          exact Nat.lt_size.1 (by omega)
        omega
    rw [List.length_cons, ih, hsize]
    omega

/-- C1: Varint round-trip.  For every `u64` value `n`, decoding the bytes
written by `put_uvarint(n)` with `read_uvarint` yields `n` again with the
stream exactly consumed, and the number of bytes written equals
`max(1, ceil(bits(n)/7))` where `bits(n) = Nat.size n`. -/
theorem uvarint_roundtrip (n : Nat) (h : n < 2 ^ 64) :
    read_uvarint (put_uvarint n) = .ok n [] ∧
    (put_uvarint n).length = max 1 ((Nat.size n + 6) / 7) := by
  constructor
  · have := read_loop_put n 0 0 0 [] rfl (by norm_num) (by simpa using h) (by norm_num)
    simpa [read_uvarint] using this
  · exact put_uvarint_length n

/-- Witness for C1 at the concrete input `n = 300`. -/
theorem uvarint_roundtrip_witness :
    read_uvarint (put_uvarint 300) = .ok 300 [] ∧
    (put_uvarint 300).length = max 1 ((Nat.size 300 + 6) / 7) :=
  uvarint_roundtrip 300 (by norm_num)

lemma read_loop_all_cont : ∀ (pre : List Nat) (x s i : Nat) (tail : List Nat),
    (∀ c ∈ pre, 0x80 ≤ c) → s = 7 * i →
    (i + pre.length ≤ 10 →
      ∃ x', read_uvarint_loop (pre ++ tail) x s i
            = read_uvarint_loop tail x' (7 * (i + pre.length)) (i + pre.length)) ∧
    (11 ≤ i + pre.length → i ≤ 10 →
      read_uvarint_loop (pre ++ tail) x s i = .panicked) := by
  intro pre
  induction pre with
  | nil =>
    intro x s i tail _ hs
    refine ⟨fun _ => ⟨x, by simp [hs]⟩, fun h1 h2 => by simp at h1 h2; omega⟩
  | cons c pre' ih =>
    intro x s i tail hc hs
    have hcge : 0x80 ≤ c := hc c (List.mem_cons_self ..)
    rw [List.cons_append, read_uvarint_loop, if_neg (by omega)]
    by_cases hi : 64 ≤ s
    · rw [if_pos hi]
      constructor
      · intro hlen
        exfalso
        simp at hlen
        omega
      · intro _ _
        rfl
    · rw [if_neg hi]
      have := ih (x ||| (c &&& 0x7f) <<< s % 2 ^ 64) (s + 7) (i + 1) tail
        (fun d hd => hc d (List.mem_cons_of_mem _ hd)) (by omega)
      constructor
      · intro hlen
        obtain ⟨x', hx'⟩ := this.1 (by simp at hlen ⊢; omega)
        refine ⟨x', ?_⟩
        rw [hx']
        congr 1 <;> simp <;> omega
      · intro h1 _
        exact this.2 (by simp at h1 ⊢; omega) (by omega)

/-- C2 (amended): `read_uvarint` fails with the `Overflow` driver error
exactly when the first non-continuation byte of the stream is at
0-based index 10, or at index 9 with a value above 1.  A stream made only
of continuation bytes instead produces the `WouldBlock` I/O error when it
is at most 10 bytes long (end of input mid-varint), and runs into the
`u64` shift overflow (a panic in debug builds) when an 11th continuation
byte is consumed — never `Overflow`. -/
theorem read_uvarint_failure_modes :
    (∀ pre b rest, (∀ c ∈ pre, 0x80 ≤ c) → b < 0x80 →
        (read_uvarint (pre ++ b :: rest) = .overflow ↔
          pre.length = 10 ∨ (pre.length = 9 ∧ 1 < b))) ∧
    (∀ bs, (∀ c ∈ bs, 0x80 ≤ c) →
        read_uvarint bs = if bs.length ≤ 10 then .ioError else .panicked) := by
  constructor
  · intro pre b rest hpre hb
    by_cases hlen : pre.length ≤ 10
    · obtain ⟨x', hx'⟩ := (read_loop_all_cont pre 0 0 0 (b :: rest) hpre rfl).1
        (by omega)
      rw [read_uvarint, hx', read_uvarint_loop, if_pos hb]
      by_cases hov : 0 + pre.length > 9 ∨ (0 + pre.length = 9 ∧ b > 1)
      · rw [if_pos hov]
        simp only [true_iff, Nat.zero_add] at *
        omega
      · rw [if_neg hov]
        simp only [Nat.zero_add] at hov ⊢
        constructor
        · intro hcontra
          cases hcontra
        · intro hcase
          exfalso
          omega
    · have := (read_loop_all_cont pre 0 0 0 (b :: rest) hpre rfl).2 (by omega) (by omega)
      rw [read_uvarint, this]
      constructor
      · intro hcontra; cases hcontra
      · intro hcase; omega
  · intro bs hbs
    by_cases hlen : bs.length ≤ 10
    · obtain ⟨x', hx'⟩ := (read_loop_all_cont bs 0 0 0 [] hbs rfl).1 (by omega)
      simp only [List.append_nil] at hx'
      rw [if_pos hlen, read_uvarint, hx']
      rfl
    · have hp := (read_loop_all_cont bs 0 0 0 [] hbs rfl).2 (by omega) (by omega)
      simp only [List.append_nil] at hp
      rw [if_neg hlen, read_uvarint, hp]

/-- Witness for C2 (amended), applying the characterization at the
concrete stream of nine continuation bytes followed by the byte 2: the
tenth byte has bits above bit 0 set, and decoding overflows. -/
theorem read_uvarint_failure_modes_witness :
    read_uvarint (List.replicate 9 0x80 ++ 2 :: []) = .overflow :=
  (read_uvarint_failure_modes.1 (List.replicate 9 0x80) 2 []
      (fun c hc => by simp at hc; omega) (by norm_num)).2
    (Or.inr ⟨by simp, by norm_num⟩)

/-- Counterexample to C2 as stated: on the stream of ten continuation
bytes `0x80`, the 10th byte has bit 7 set and an 11th byte would be
needed, yet `read_uvarint` returns the `WouldBlock` I/O error rather
than the `Overflow` driver error. -/
theorem read_uvarint_eof_not_overflow :
    read_uvarint (List.replicate 10 0x80) = .ioError ∧
    read_uvarint (List.replicate 10 0x80) ≠ .overflow := by decide

/-! ## Value model

Embedding of `SqlType` (src/types/sql_type.rs) and the owned/borrowed
value unions `Value` (src/value/value.rs) and `ValueRef`
(src/value/value_ref.rs).  The source interns nested `SqlType`s behind
`&'static` references purely as a caching device; the spec states that
structural equality is the contract, so nesting is structural here.
`f32`/`f64` payloads are carried as their IEEE-754 bit patterns, and the
Rust `==` on floats is `f32_eq`/`f64_eq` below (equal bits and not NaN,
or two zeros of either sign). -/

/-- Rust: `enum SqlType` (src/types/sql_type.rs). -/
inductive SqlType where
  | uint8 | uint16 | uint32 | uint64
  | int8 | int16 | int32 | int64 | int256
  | string
  | fixedString (len : Nat)
  | float32 | float64
  | nullable (inner : SqlType)
  | array (inner : SqlType)
  deriving DecidableEq

/-- Rust: `SqlType::to_string` (src/types/sql_type.rs). -/
def SqlType.to_string : SqlType → String
  | .uint8 => "UInt8"
  | .uint16 => "UInt16"
  | .uint32 => "UInt32"
  | .uint64 => "UInt64"
  | .int8 => "Int8"
  | .int16 => "Int16"
  | .int32 => "Int32"
  | .int64 => "Int64"
  | .int256 => "Int256"
  | .string => "String"
  | .fixedString len => "FixedString(" ++ toString len ++ ")"
  | .float32 => "Float32"
  | .float64 => "Float64"
  | .nullable inner => "Nullable(" ++ inner.to_string ++ ")"
  | .array inner => "Array(" ++ inner.to_string ++ ")"

def f32_is_nan (bits : Nat) : Bool :=
  ((bits >>> 23) &&& 0xff) == 0xff && (bits &&& 0x7fffff) != 0

def f32_eq (a b : Nat) : Bool :=
  !f32_is_nan a && !f32_is_nan b &&
    (a == b || ((a &&& 0x7fffffff) == 0 && (b &&& 0x7fffffff) == 0))

def f64_is_nan (bits : Nat) : Bool :=
  ((bits >>> 52) &&& 0x7ff) == 0x7ff && (bits &&& 0xfffffffffffff) != 0

def f64_eq (a b : Nat) : Bool :=
  !f64_is_nan a && !f64_is_nan b &&
    (a == b || ((a &&& 0x7fffffffffffffff) == 0 && (b &&& 0x7fffffffffffffff) == 0))

/-- Rust: `enum Value` (src/value/value.rs).  `Nullable` carries
`Either<&'static SqlType, Box<Value>>`, modelled as a sum. -/
inductive Value where
  | uint8 (v : Nat)
  | uint16 (v : Nat)
  | uint32 (v : Nat)
  | uint64 (v : Nat)
  | int8 (v : Int)
  | int16 (v : Int)
  | int32 (v : Int)
  | int64 (v : Int)
  | int256 (v : Int)
  | string (bytes : List Nat)
  | float32 (bits : Nat)
  | float64 (bits : Nat)
  | nullable (content : SqlType ⊕ Value)
  | array (elemType : SqlType) (items : List Value)

mutual

/-- Rust: `impl PartialEq for Value` (src/value/value.rs).  The arm list
mirrors the source exactly; note that the source has no
`(Int256, Int256)` arm, so that pair falls into the `_ => false`
catch-all. -/
def valueEq : Value → Value → Bool
  | .uint8 a, .uint8 b => a == b
  | .uint16 a, .uint16 b => a == b
  | .uint32 a, .uint32 b => a == b
  | .uint64 a, .uint64 b => a == b
  | .int8 a, .int8 b => a == b
  | .int16 a, .int16 b => a == b
  | .int32 a, .int32 b => a == b
  | .int64 a, .int64 b => a == b
  | .string a, .string b => a == b
  | .float32 a, .float32 b => f32_eq a b
  | .float64 a, .float64 b => f64_eq a b
  | .nullable a, .nullable b => valueEitherEq a b
  | .array ta a, .array tb b => ta == tb && valueListEq a b
  | _, _ => false

def valueEitherEq : SqlType ⊕ Value → SqlType ⊕ Value → Bool
  | .inl a, .inl b => a == b
  | .inr a, .inr b => valueEq a b
  | _, _ => false

def valueListEq : List Value → List Value → Bool
  | [], [] => true
  | a :: as, b :: bs => valueEq a b && valueListEq as bs
  | _, _ => false

end

/-- Rust: `enum ValueRef` (src/value/value_ref.rs). -/
inductive ValueRef where
  | uint8 (v : Nat)
  | uint16 (v : Nat)
  | uint32 (v : Nat)
  | uint64 (v : Nat)
  | int8 (v : Int)
  | int16 (v : Int)
  | int32 (v : Int)
  | int64 (v : Int)
  | int256 (v : Int)
  | string (bytes : List Nat)
  | float32 (bits : Nat)
  | float64 (bits : Nat)
  | nullable (content : SqlType ⊕ ValueRef)
  | array (elemType : SqlType) (items : List ValueRef)

mutual

/-- Rust: `impl PartialEq for ValueRef` (src/value/value_ref.rs); like
`valueEq`, the source has no `Int256` arm. -/
def valueRefEq : ValueRef → ValueRef → Bool
  | .uint8 a, .uint8 b => a == b
  | .uint16 a, .uint16 b => a == b
  | .uint32 a, .uint32 b => a == b
  | .uint64 a, .uint64 b => a == b
  | .int8 a, .int8 b => a == b
  | .int16 a, .int16 b => a == b
  | .int32 a, .int32 b => a == b
  | .int64 a, .int64 b => a == b
  | .string a, .string b => a == b
  | .float32 a, .float32 b => f32_eq a b
  | .float64 a, .float64 b => f64_eq a b
  | .nullable a, .nullable b => valueRefEitherEq a b
  | .array ta a, .array tb b => ta == tb && valueRefListEq a b
  | _, _ => false

def valueRefEitherEq : SqlType ⊕ ValueRef → SqlType ⊕ ValueRef → Bool
  | .inl a, .inl b => a == b
  | .inr a, .inr b => valueRefEq a b
  | _, _ => false

def valueRefListEq : List ValueRef → List ValueRef → Bool
  | [], [] => true
  | a :: as, b :: bs => valueRefEq a b && valueRefListEq as bs
  | _, _ => false

end

/-- C6: Total equality on matching tags.  Evaluation at the failing input:
the hand-written `PartialEq` match in src/value/value.rs and
src/value/value_ref.rs has no `Int256` arm, so an `Int256` value compared
with itself falls into the `_ => false` catch-all — even though both
enums derive `Eq` (whose contract demands reflexivity) and hash `Int256`.
The claim that every variant, including `Int256`, equals itself is right
about the intent and the code is a slip. -/
theorem value_eq_int256_not_reflexive :
    valueEq (.int256 0) (.int256 0) = false ∧
    valueRefEq (.int256 0) (.int256 0) = false := by
  constructor <;> rfl

/-- Rust: `impl From<ValueRef> for SqlType` (src/value/value_ref.rs). -/
def sql_type_of_ref : ValueRef → SqlType
  | .uint8 _ => .uint8
  | .uint16 _ => .uint16
  | .uint32 _ => .uint32
  | .uint64 _ => .uint64
  | .int8 _ => .int8
  | .int16 _ => .int16
  | .int32 _ => .int32
  | .int64 _ => .int64
  | .int256 _ => .int256
  | .string _ => .string
  | .float32 _ => .float32
  | .float64 _ => .float64
  | .nullable (.inl t) => .nullable t
  | .nullable (.inr v) => .nullable (sql_type_of_ref v)
  | .array t _ => .array t

/-! ## Typed extraction

Embedding of the `from_sql_impl!` macro family (src/types/sql_trait.rs)
for the numeric Rust target types, and of cell access through
`Block::get` (src/block/mod.rs) and `Row::get` (src/block/row.rs). -/

/-- The Rust target types instantiated by `from_sql_impl!`. -/
inductive NumTarget where
  | u8 | u16 | u32 | u64 | i8 | i16 | i32 | i64 | i256 | f32 | f64
  deriving DecidableEq

/-- The `stringify!($t)` name carried in the `dst` field of
`InvalidType`. -/
def NumTarget.name : NumTarget → String
  | .u8 => "u8"
  | .u16 => "u16"
  | .u32 => "u32"
  | .u64 => "u64"
  | .i8 => "i8"
  | .i16 => "i16"
  | .i32 => "i32"
  | .i64 => "i64"
  | .i256 => "I256"
  | .f32 => "f32"
  | .f64 => "f64"

/-- The `SqlType` tag a target accepts, for stating the match/mismatch
dichotomy. -/
def NumTarget.tag : NumTarget → SqlType
  | .u8 => .uint8
  | .u16 => .uint16
  | .u32 => .uint32
  | .u64 => .uint64
  | .i8 => .int8
  | .i16 => .int16
  | .i32 => .int32
  | .i64 => .int64
  | .i256 => .int256
  | .f32 => .float32
  | .f64 => .float64

/-- The payload returned by a successful `from_sql`. -/
inductive Extracted where
  | u8 (v : Nat) | u16 (v : Nat) | u32 (v : Nat) | u64 (v : Nat)
  | i8 (v : Int) | i16 (v : Int) | i32 (v : Int) | i64 (v : Int) | i256 (v : Int)
  | f32 (bits : Nat) | f64 (bits : Nat)
  deriving DecidableEq

/-- Rust: `enum FromSqlError` (src/error.rs is not under src/, but the
variants are fixed by their uses in src/types/sql_trait.rs,
src/block/mod.rs and src/column/factory.rs). -/
inductive FromSqlErr where
  | outOfRange
  | invalidType (src : String) (dst : String)
  | unsupportedOperation
  | unsupportedColumnType (name : String)
  deriving DecidableEq

/-- Rust: `from_sql_impl!` (src/types/sql_trait.rs): match the expected
`ValueRef` variant, otherwise fail with
`InvalidType { src: SqlType::from(value).to_string(), dst: stringify!(t) }`. -/
def from_sql : NumTarget → ValueRef → Except FromSqlErr Extracted
  | .u8, .uint8 v => .ok (.u8 v)
  | .u16, .uint16 v => .ok (.u16 v)
  | .u32, .uint32 v => .ok (.u32 v)
  | .u64, .uint64 v => .ok (.u64 v)
  | .i8, .int8 v => .ok (.i8 v)
  | .i16, .int16 v => .ok (.i16 v)
  | .i32, .int32 v => .ok (.i32 v)
  | .i64, .int64 v => .ok (.i64 v)
  | .i256, .int256 v => .ok (.i256 v)
  | .f32, .float32 v => .ok (.f32 v)
  | .f64, .float64 v => .ok (.f64 v)
  | t, v => .error (.invalidType (sql_type_of_ref v).to_string t.name)

theorem from_sql_mismatch (t : NumTarget) (v : ValueRef)
    (h : t.tag ≠ sql_type_of_ref v) :
    from_sql t v = .error (.invalidType (sql_type_of_ref v).to_string t.name) := by
  cases t <;> cases v <;> simp_all [from_sql, NumTarget.tag, sql_type_of_ref]

theorem from_sql_match_u8 (x : Nat) : from_sql .u8 (.uint8 x) = .ok (.u8 x) := rfl

/-! ## Columns and blocks

A column-data trait object (src/column/column_data.rs is not under src/;
its interface is fixed by the uses in src/column/mod.rs) is modelled by
the observations the claims need: its `sql_type()`, its `len()`, its
`at(i)` and the bytes its `save` writes. -/

/-- Model of a `dyn ColumnData` trait object. -/
structure ColumnData where
  sqlType : SqlType
  len : Nat
  atRow : Nat → ValueRef
  body : List Nat

/-- Rust: `struct Column` (src/column/mod.rs): a name plus shared
column data. -/
structure Column where
  name : String
  data : ColumnData

def Column.len (c : Column) : Nat := c.data.len

def Column.sql_type (c : Column) : SqlType := c.data.sqlType

def Column.atRow (c : Column) (i : Nat) : ValueRef := c.data.atRow i

def defaultColumn : Column := ⟨"", ⟨.uint8, 0, fun _ => .uint8 0, []⟩⟩

/-- Modelled from the spec: `BlockInfo` (src/block/block_info.rs is
absent from the tree); the spec gives it the fields `is_overflows: bool`
and `bucket_num: i32`. -/
structure BlockInfo where
  is_overflows : Bool
  bucket_num : Int

/-- Rust: `struct Block` (src/block/mod.rs).  The `capacity` field only
pre-sizes allocations and has no observable effect, so it is not
modelled. -/
structure Block where
  info : BlockInfo
  columns : List Column

/-- Rust: `Block::row_count` (src/block/mod.rs). -/
def Block.row_count (b : Block) : Nat :=
  match b.columns.head? with
  | none => 0
  | some c => c.len

def Block.column_count (b : Block) : Nat := b.columns.length

def Block.is_empty (b : Block) : Bool := b.columns.isEmpty

/-- Rust: `Block::append_column` (src/block/mod.rs); the panic on a
length mismatch is modelled as `none`. -/
def Block.append_column (b : Block) (c : Column) : Option Block :=
  if ¬ b.columns.isEmpty ∧ b.row_count ≠ c.len then none
  else some { b with columns := b.columns ++ [c] }

/-- Rust: the column loop of `Block::raw_load` (src/block/mod.rs): each
decoded column is pushed through `append_column`. -/
def Block.load_columns : Block → List Column → Option Block
  | b, [] => some b
  | b, c :: cs =>
    match b.append_column c with
    | none => none
    | some b' => Block.load_columns b' cs

/-- The block invariant of the claim: all columns report one common
length. -/
def block_wf (b : Block) : Prop :=
  ∀ c₁ ∈ b.columns, ∀ c₂ ∈ b.columns, Column.len c₁ = Column.len c₂

/-- C7: Block column-length invariant.  Appending a column
(`Block::append_column`, which panics — modelled as `none` — when the new
column's length differs from the block's row count) preserves the
invariant that all columns report one common `len()`; `row_count()`
returns that common length and `0` for a block with no columns; loading
from the wire (`Block::raw_load`, a fold of `append_column` over the
decoded columns) only ever produces blocks satisfying the invariant; and
the empty block is a legal value satisfying it. -/
theorem block_column_length_invariant :
    (∀ b c b', block_wf b → b.append_column c = some b' → block_wf b') ∧
    (∀ b, block_wf b →
      (b.columns = [] → b.row_count = 0) ∧ ∀ c ∈ b.columns, Column.len c = b.row_count) ∧
    (∀ info cols b', Block.load_columns ⟨info, []⟩ cols = some b' → block_wf b') ∧
    (∀ info, block_wf ⟨info, []⟩) := by
  have happ : ∀ b c b', block_wf b → b.append_column c = some b' → block_wf b' := by
    intro b c b' hwf happ
    rw [Block.append_column] at happ
    split at happ
    · cases happ
    · rename_i hcond
      cases happ
      push_neg at hcond
      intro c₁ h₁ c₂ h₂
      simp only [List.mem_append, List.mem_singleton] at h₁ h₂
      by_cases hbe : b.columns = []
      · rw [hbe] at h₁ h₂
        simp at h₁ h₂
        subst h₁; subst h₂; rfl
      · have hrc := hcond (by simp [List.isEmpty_iff, hbe])
        have hhead : ∀ d ∈ b.columns, Column.len d = b.row_count := by
          intro d hd
          obtain ⟨h0, hcs⟩ : ∃ h0 hcs, b.columns = h0 :: hcs :=
            List.exists_cons_of_ne_nil hbe
          obtain ⟨hcs, hbc⟩ := hcs
          rw [Block.row_count, hbc]
          simp only [List.head?_cons]
          exact hwf d hd h0 (by rw [hbc]; exact List.mem_cons_self ..)
        rcases h₁ with h₁ | h₁ <;> rcases h₂ with h₂ | h₂
        · exact hwf c₁ h₁ c₂ h₂
        · subst h₂; rw [hhead c₁ h₁, hrc]
        · subst h₁; rw [hhead c₂ h₂, hrc]
        · subst h₁; subst h₂; rfl
  refine ⟨happ, ?_, ?_, ?_⟩
  · intro b hwf
    constructor
    · intro hnil
      rw [Block.row_count, hnil]
      rfl
    · intro c hc
      obtain ⟨h0, hcs, hbc⟩ : ∃ h0 hcs, b.columns = h0 :: hcs :=
        List.exists_cons_of_ne_nil (by intro hn; rw [hn] at hc; cases hc)
      rw [Block.row_count, hbc]
      simp only [List.head?_cons]
      exact hwf c hc h0 (by rw [hbc]; exact List.mem_cons_self ..)
  · intro info cols
    suffices hgen : ∀ (cols : List Column) (b b' : Block), block_wf b →
        Block.load_columns b cols = some b' → block_wf b' by
      intro b' hload
      exact hgen cols ⟨info, []⟩ b' (by intro c hc; cases hc) hload
    intro cols
    induction cols with
    | nil =>
      intro b b' hwf hload
      rw [Block.load_columns] at hload
      cases hload
      exact hwf
    | cons c cs ih =>
      intro b b' hwf hload
      rw [Block.load_columns] at hload
      split at hload
      · cases hload
      · rename_i b'' happend
        exact ih b'' b' (happ b c b'' hwf happend) hload
  · intro info c hc
    cases hc

/-- Witness for C7: building a one-column block from the empty block with
`append_column` yields a block satisfying the invariant. -/
theorem block_column_length_invariant_witness :
    block_wf ⟨⟨false, -1⟩, [defaultColumn]⟩ :=
  block_column_length_invariant.1 ⟨⟨false, -1⟩, []⟩ defaultColumn
    ⟨⟨false, -1⟩, [defaultColumn]⟩
    (block_column_length_invariant.2.2.2 ⟨false, -1⟩) rfl

/-- Rust: `impl ColumnIdx for &str::get_index` (src/block/mod.rs). -/
def get_index_by_name (name : String) (cols : List Column) : Except FromSqlErr Nat :=
  match cols.findIdx? (fun c => c.name == name) with
  | none => .error .outOfRange
  | some i => .ok i

/-- Rust: `Block::get` with a `usize` index (src/block/mod.rs); `usize`
indices pass through unchecked (an out-of-range index panics in Rust and
is outside the claim). -/
def Block.get_by_index (b : Block) (row : Nat) (idx : Nat) (t : NumTarget) :
    Except FromSqlErr Extracted :=
  from_sql t ((b.columns.getD idx defaultColumn).atRow row)

/-- Rust: `Block::get` with a `&str` index (src/block/mod.rs). -/
def Block.get_by_name (b : Block) (row : Nat) (name : String) (t : NumTarget) :
    Except FromSqlErr Extracted :=
  match get_index_by_name name b.columns with
  | .error e => .error e
  | .ok i => from_sql t ((b.columns.getD i defaultColumn).atRow row)

/-- Rust: `struct Row` (src/block/row.rs): a row index plus a block
reference. -/
structure RowM where
  row : Nat
  block_ref : Block

def RowM.get_by_name (r : RowM) (name : String) (t : NumTarget) :
    Except FromSqlErr Extracted :=
  r.block_ref.get_by_name r.row name t

def RowM.get_by_index (r : RowM) (idx : Nat) (t : NumTarget) :
    Except FromSqlErr Extracted :=
  r.block_ref.get_by_index r.row idx t

/-- C9: Typed cell extraction.  `from_sql` (the `from_sql_impl!` family in
src/types/sql_trait.rs) type-checks the requested Rust type against the
cell's tag: on a mismatch it returns `InvalidType { src, dst }` naming
the source `SqlType` (via its `to_string`) and the destination Rust type,
and on a match it returns the stored value (one conjunct per numeric
target).  Positional and by-name access (`Block::get`, `Row::get`)
delegate to `from_sql` on the addressed cell, and a by-name lookup that
matches no column fails with `OutOfRange`. -/
theorem typed_cell_extraction :
    (∀ (t : NumTarget) (v : ValueRef), t.tag ≠ sql_type_of_ref v →
        from_sql t v = .error (.invalidType (sql_type_of_ref v).to_string t.name)) ∧
    ((∀ x, from_sql .u8 (.uint8 x) = .ok (.u8 x)) ∧
     (∀ x, from_sql .u16 (.uint16 x) = .ok (.u16 x)) ∧
     (∀ x, from_sql .u32 (.uint32 x) = .ok (.u32 x)) ∧
     (∀ x, from_sql .u64 (.uint64 x) = .ok (.u64 x)) ∧
     (∀ x, from_sql .i8 (.int8 x) = .ok (.i8 x)) ∧
     (∀ x, from_sql .i16 (.int16 x) = .ok (.i16 x)) ∧
     (∀ x, from_sql .i32 (.int32 x) = .ok (.i32 x)) ∧
     (∀ x, from_sql .i64 (.int64 x) = .ok (.i64 x)) ∧
     (∀ x, from_sql .i256 (.int256 x) = .ok (.i256 x)) ∧
     (∀ x, from_sql .f32 (.float32 x) = .ok (.f32 x)) ∧
     (∀ x, from_sql .f64 (.float64 x) = .ok (.f64 x))) ∧
    (∀ (b : Block) (row : Nat) (name : String) (t : NumTarget),
        (∀ c ∈ b.columns, c.name ≠ name) →
        b.get_by_name row name t = .error .outOfRange) ∧
    (∀ (b : Block) (row : Nat) (name : String) (t : NumTarget) (i : Nat),
        b.columns.findIdx? (fun c => c.name == name) = some i →
        b.get_by_name row name t = from_sql t ((b.columns.getD i defaultColumn).atRow row)) ∧
    (∀ (r : RowM) (name : String) (t : NumTarget),
        r.get_by_name name t = r.block_ref.get_by_name r.row name t) ∧
    (∀ (r : RowM) (idx : Nat) (t : NumTarget),
        r.get_by_index idx t =
          from_sql t ((r.block_ref.columns.getD idx defaultColumn).atRow r.row)) := by
  refine ⟨from_sql_mismatch, ?_, ?_, ?_, fun _ _ _ => rfl, fun _ _ _ => rfl⟩
  · exact ⟨fun _ => rfl, fun _ => rfl, fun _ => rfl, fun _ => rfl, fun _ => rfl,
      fun _ => rfl, fun _ => rfl, fun _ => rfl, fun _ => rfl, fun _ => rfl, fun _ => rfl⟩
  · intro b row name t hnone
    rw [Block.get_by_name, get_index_by_name]
    have hfind : b.columns.findIdx? (fun c => c.name == name) = none := by
      rw [List.findIdx?_eq_none_iff]
      intro c hc
      simpa using hnone c hc
    rw [hfind]
  · intro b row name t i hfind
    rw [Block.get_by_name, get_index_by_name, hfind]

theorem typed_cell_extraction_witness :
    from_sql .u32 (.uint16 7)
      = .error (.invalidType "UInt16" "u32") ∧
    from_sql .u8 (.uint8 42) = .ok (.u8 42) := by
  constructor
  · exact typed_cell_extraction.1 .u32 (.uint16 7) (by decide)
  · exact typed_cell_extraction.2.1.1 42

/-! ## Wire encoding and chunking

Protocol constants are from src/protocol.rs.  The encoder
(src/binary/encoder.rs is absent from the tree) is modelled from the
spec as a byte-list builder: `uvarint` appends `put_uvarint` bytes and
`string` appends a uvarint length prefix followed by the bytes. -/

def CLIENT_QUERY : Nat := 1
def CLIENT_DATA : Nat := 2
def COMPRESS_DISABLE : Nat := 0
def STATE_COMPLETE : Nat := 2
def READONLY_LEVEL : Nat := 1
def DBMS_MIN_REVISION_WITH_QUOTA_KEY_IN_CLIENT_INFO : Nat := 54060
def INSERT_BLOCK_SIZE : Nat := 1048576

def str_bytes (s : String) : List Nat := s.data.map Char.toNat

/-- Modelled from the spec: `Encoder::string` (src/binary/encoder.rs is
absent): a uvarint byte length followed by the bytes. -/
def enc_string (s : List Nat) : List Nat := put_uvarint s.length ++ s

/-- Little-endian byte encoding of an `i32` (two's complement). -/
def i32_le (v : Int) : List Nat :=
  let u := (v % (2 ^ 32 : Int)).toNat
  [u % 256, u / 256 % 256, u / 2 ^ 16 % 256, u / 2 ^ 24 % 256]

/-- Modelled from the spec: the `BlockInfo` wire layout
(src/block/block_info.rs is absent): `(field_num, value)` records —
`1` then the overflow byte, `2` then the `i32` bucket number — closed by
field number `0`. -/
def BlockInfo.write (i : BlockInfo) : List Nat :=
  put_uvarint 1 ++ [if i.is_overflows then 1 else 0]
    ++ put_uvarint 2 ++ i32_le i.bucket_num
    ++ put_uvarint 0

/-- Modelled from the spec: the `Default` values of `BlockInfo`
(src/block/block_info.rs is absent; the ClickHouse wire convention is no
overflows and bucket `-1`).  No theorem below depends on these values. -/
def BlockInfo.default : BlockInfo := ⟨false, -1⟩

def Block.default : Block := ⟨BlockInfo.default, []⟩

/-- Rust: `Column::write` (src/column/mod.rs): the name, the type-name
string, then the body written by the data's `save`. -/
def Column.write (c : Column) : List Nat :=
  enc_string (str_bytes c.name) ++ enc_string (str_bytes c.data.sqlType.to_string)
    ++ c.data.body

/-- Rust: `Block::write` (src/block/mod.rs). -/
def Block.write (b : Block) : List Nat :=
  b.info.write ++ put_uvarint b.column_count ++ put_uvarint b.row_count
    ++ (b.columns.map Column.write).flatten

/-- Modelled from the spec: `Column::slice` builds a `ChunkColumnData`
(src/column/chunk.rs is absent): a view over the source column
restricted to the half-open range, with `len = hi - lo` and
`at i = source.at (lo + i)`. -/
def Column.slice (c : Column) (lo hi : Nat) : Column :=
  { name := c.name,
    data := { sqlType := c.data.sqlType
              len := hi - lo
              atRow := fun i => c.data.atRow (lo + i)
              body := c.data.body } }

/-- Rust: `ChunkIterator::next` (src/block/chunk_iterator.rs).  The
non-empty branch assembles the result with `Block::new().column(..)`,
which cannot panic because every slice has the same length `sz`; it is
modelled as the direct column map. -/
def chunk_next (block : Block) (size : Nat) (position : Nat) : Option Block × Nat :=
  let m := block.row_count
  if m = 0 ∧ position = 0 then (some Block.default, position + 1)
  else if m ≤ position then (none, position)
  else
    let sz := min size (m - position)
    (some { info := BlockInfo.default
            columns := block.columns.map (fun col => col.slice position (position + sz)) },
      position + sz)

/-- Iterating `chunk_next` to exhaustion, with fuel `row_count + 2`,
which covers every terminating run of the source iterator (for a
zero-row block exactly two steps occur; for `size = 0` and a non-empty
block the source loops forever and the model truncates instead). -/
def chunks_list_from (block : Block) (size : Nat) : Nat → Nat → List Block
  | 0, _ => []
  | fuel + 1, pos =>
    match chunk_next block size pos with
    | (none, _) => []
    | (some b, pos') => b :: chunks_list_from block size fuel pos'

def Block.chunks (b : Block) (n : Nat) : List Block :=
  chunks_list_from b n (b.row_count + 2) 0

/-- Rust: `Block::send_data` (src/block/mod.rs): the `CLIENT_DATA`
marker, the empty temporary-table name, then each chunk written in
order. -/
def Block.send_data (b : Block) : List Nat :=
  put_uvarint CLIENT_DATA ++ enc_string (str_bytes "")
    ++ ((b.chunks INSERT_BLOCK_SIZE).map Block.write).flatten

/-- Rust: `client_info::write` (src/protocol.rs). -/
def client_info_write : List Nat :=
  enc_string (str_bytes "RustCHDriver") ++ put_uvarint 1 ++ put_uvarint 1
    ++ put_uvarint 54213

structure Query where
  sql : String
  id : String

structure Context where
  hostname : String
  revision : Nat

/-- Rust: `encode_query` (src/types/command.rs) up to but excluding the
final terminating data block. -/
def encode_query_head (q : Query) (ctx : Context) : List Nat :=
  put_uvarint CLIENT_QUERY ++ enc_string (str_bytes "")
    ++ (put_uvarint 1 ++ enc_string (str_bytes "") ++ enc_string (str_bytes q.id)
        ++ enc_string (str_bytes "[::ffff:127.0.0.1]:0") ++ put_uvarint 1
        ++ enc_string (str_bytes ctx.hostname) ++ enc_string (str_bytes ctx.hostname))
    ++ client_info_write
    ++ (if DBMS_MIN_REVISION_WITH_QUOTA_KEY_IN_CLIENT_INFO ≤ ctx.revision
        then enc_string (str_bytes "") else [])
    ++ enc_string (str_bytes "readonly") ++ put_uvarint READONLY_LEVEL
    ++ enc_string (str_bytes "")
    ++ put_uvarint STATE_COMPLETE
    ++ put_uvarint COMPRESS_DISABLE
    ++ enc_string (str_bytes q.sql)

/-- Rust: `encode_query` (src/types/command.rs): the head followed by
`Block::default().send_data(..)`. -/
def encode_query (q : Query) (ctx : Context) : List Nat :=
  encode_query_head q ctx ++ Block.send_data Block.default

/-- C10: Zero-row chunking edge case.  For every block with zero rows and
every chunk size `n`, `ChunkIterator::next` first yields `Block::default()`
and then terminates, so `chunks` is exactly the one-element list holding
the default (empty) block; consequently `send_data` on a zero-row block
writes the `CLIENT_DATA` marker, the empty temporary-table name and
exactly one serialized empty block; and `encode_query` ends with
`send_data` of the default block, which terminates the encoded query
command. -/
theorem zero_row_block_chunking :
    (∀ (b : Block) (n : Nat), b.row_count = 0 →
        chunk_next b n 0 = (some Block.default, 1) ∧
        (chunk_next b n 1).1 = none ∧
        b.chunks n = [Block.default]) ∧
    (∀ b : Block, b.row_count = 0 →
        b.send_data = put_uvarint CLIENT_DATA ++ enc_string (str_bytes "")
          ++ Block.write Block.default) ∧
    (∀ q ctx, encode_query q ctx = encode_query_head q ctx
        ++ Block.send_data Block.default) := by
  have hchunks : ∀ (b : Block) (n : Nat), b.row_count = 0 →
      b.chunks n = [Block.default] := by
    intro b n h
    have hstep0 : chunk_next b n 0 = (some Block.default, 1) := by
      simp [chunk_next, h]
    have hstep1 : chunk_next b n 1 = (none, 1) := by
      simp [chunk_next, h]
    simp only [Block.chunks, chunks_list_from, hstep0, hstep1]
  refine ⟨?_, ?_, fun _ _ => rfl⟩
  · intro b n h
    refine ⟨by simp [chunk_next, h], by simp [chunk_next, h], hchunks b n h⟩
  · intro b h
    rw [Block.send_data, hchunks b _ h]
    simp

/-- Witness for C10 at the default block and the chunk size used by
`send_data`. -/
theorem zero_row_block_chunking_witness :
    Block.chunks Block.default 1048576 = [Block.default] :=
  (zero_row_block_chunking.1 Block.default 1048576 rfl).2.2

structure ServerErr where
  code : Int
  name : String
  message : String

/-! ## Block stream

Embedding of `BlockStream::poll_next` (src/query.rs) over the packets
delivered by the transport (`enum Packet`, src/types/packet.rs; payloads
irrelevant to the stream are dropped).  The pull-based `Poll` machinery
is modelled by the list of items the stream yields over a given packet
sequence: `Exception` and the synthetic end-of-stream `Eof` set the
stream's `eof` flag, terminating the output. -/

/-- Rust: `enum Packet` (src/types/packet.rs) as seen by `BlockStream`. -/
inductive SrvPacket where
  | hello
  | pong
  | progress
  | profileInfo
  | exception (e : ServerErr)
  | block (b : Block)
  | eof

inductive StreamErr where
  | server (e : ServerErr)
  | unexpectedPacket

inductive BSItem where
  | outBlock (b : Block)
  | outErr (e : StreamErr)

structure BSState where
  eof : Bool
  block_index : Nat
  skip_first_block : Bool

def bs_init (skip : Bool) : BSState := ⟨false, 0, skip⟩

/-- Rust: `BlockStream::poll_next` (src/query.rs), iterated over the
packet sequence; the yielded items are collected in order. -/
def bs_run (st : BSState) (ps : List SrvPacket) : List BSItem :=
  if st.eof then []
  else match ps with
    | [] => []
    | .eof :: _ => []
    | .profileInfo :: rest => bs_run st rest
    | .progress :: rest => bs_run st rest
    | .exception e :: _ => [.outErr (.server e)]
    | .block b :: rest =>
      let st' : BSState := { st with block_index := st.block_index + 1 }
      if (st'.block_index > 1 ∨ st'.skip_first_block = false) ∧ b.is_empty = false then
        .outBlock b :: bs_run st' rest
      else bs_run st' rest
    | .hello :: rest => .outErr .unexpectedPacket :: bs_run st rest
    | .pong :: rest => .outErr .unexpectedPacket :: bs_run st rest
  termination_by ps.length
  decreasing_by all_goals simp

/-- Specification-side transcription of the claim sentence: yield each
non-empty block, silently drop the first block when `skipFirst`, discard
`ProfileInfo` and `Progress`, end with a terminal error on `Exception`
and with terminal success on end-of-stream (`Hello`/`Pong` are
unexpected-packet errors, as in the code's catch-all). -/
def block_stream_spec_go (skipFirst firstDone : Bool) : List SrvPacket → List BSItem
  | [] => []
  | .eof :: _ => []
  | .exception e :: _ => [.outErr (.server e)]
  | .profileInfo :: rest => block_stream_spec_go skipFirst firstDone rest
  | .progress :: rest => block_stream_spec_go skipFirst firstDone rest
  | .block b :: rest =>
    if firstDone = false ∧ skipFirst = true then block_stream_spec_go skipFirst true rest
    else if b.is_empty = false then .outBlock b :: block_stream_spec_go skipFirst true rest
    else block_stream_spec_go skipFirst true rest
  | .hello :: rest => .outErr .unexpectedPacket :: block_stream_spec_go skipFirst firstDone rest
  | .pong :: rest => .outErr .unexpectedPacket :: block_stream_spec_go skipFirst firstDone rest

def block_stream_spec (skipFirst : Bool) (ps : List SrvPacket) : List BSItem :=
  block_stream_spec_go skipFirst false ps

lemma bs_run_spec_go (ps : List SrvPacket) : ∀ st : BSState, st.eof = false →
    bs_run st ps = block_stream_spec_go st.skip_first_block (decide (1 ≤ st.block_index)) ps := by
  induction ps with
  | nil =>
    intro st hst
    rw [bs_run.eq_def]
    simp [hst, block_stream_spec_go]
  | cons p rest ih =>
    intro st hst
    rw [bs_run.eq_def]
    simp only [hst, Bool.false_eq_true, if_false]
    cases p with
    | eof => rw [block_stream_spec_go]
    | exception e => rw [block_stream_spec_go]
    | profileInfo => rw [block_stream_spec_go]; exact ih st hst
    | progress => rw [block_stream_spec_go]; exact ih st hst
    | hello =>
      rw [block_stream_spec_go]
      show BSItem.outErr .unexpectedPacket :: bs_run st rest = _
      rw [ih st hst]
    | pong =>
      rw [block_stream_spec_go]
      show BSItem.outErr .unexpectedPacket :: bs_run st rest = _
      rw [ih st hst]
    | block b =>
      rw [block_stream_spec_go]
      have hih := ih { st with block_index := st.block_index + 1 } hst
      rw [hst] at hih
      simp only at hih
      have hd1 : (decide (1 ≤ st.block_index + 1)) = true := by simp
      rw [hd1] at hih
      have hc : (st.block_index + 1 > 1) ↔ (1 ≤ st.block_index) := by omega
      have hd : ¬ (1 ≤ st.block_index) ↔ st.block_index = 0 := by omega
      by_cases hfirst : 1 ≤ st.block_index <;>
        by_cases hempty : b.is_empty = false <;>
          by_cases hskip : st.skip_first_block = true <;>
            (simp [hc, hfirst, hempty, hskip, hd.1] <;>
              (try simp [hskip] at hih) <;>
              (try simp only [hd.1 hfirst] at hih) <;> (try exact hih))

/-- C4: Query block stream semantics.  `BlockStream::poll_next`
(src/query.rs), run over any sequence of server packets, behaves exactly
as specified: it yields each non-empty `Block`, silently drops the first
block when `skip_first_block` is true, observes and discards
`ProfileInfo` and `Progress`, ends with a terminal error on `Exception`,
ends with terminal success on the end-of-stream marker, and reports
`UnexpectedPacket` (without terminating) on `Hello` or `Pong`.  Stated as
equality with `block_stream_spec`, the direct transcription of the
specification sentence. -/
theorem block_stream_semantics (skip : Bool) (ps : List SrvPacket) :
    bs_run (bs_init skip) ps = block_stream_spec skip ps := by
  rw [block_stream_spec]
  have := bs_run_spec_go ps (bs_init skip) rfl
  simpa [bs_init] using this

/-! ## Connection pool

Embedding of the pool accounting of src/pool/mod.rs.  A state carries
the one-slot `new` queue (with the status of the in-flight connection
future), the `idle` queue length and the `ongoing` counter.  `Pool::poll`
is one atomic step (the source runs it without suspension points); the
future's completion is a separate asynchronous step flipping the slot to
ready, observed by the next poll's `handle_futures`.  The waker queue
affects only scheduling, not the accounting, and is not modelled. -/

def POOL_MIN : Nat := 5
def POOL_MAX : Nat := 10

inductive NewState where
  | empty | pending | ready | readyErr
  deriving DecidableEq

structure PoolState where
  newConn : NewState
  idle : Nat
  ongoing : Nat
  deriving DecidableEq

def new_len (s : PoolState) : Nat := if s.newConn = .empty then 0 else 1

def conn_count (s : PoolState) : Nat := new_len s + s.idle + s.ongoing

/-- Rust: `Pool::handle_futures` (src/pool/mod.rs): a ready connection
is pushed to `idle`; a pending future is pushed back; an errored future
is dropped and the error propagates (the Boolean result). -/
def handle_futures (s : PoolState) : PoolState × Bool :=
  match s.newConn with
  | .ready => ({ s with newConn := .empty, idle := s.idle + 1 }, false)
  | .readyErr => ({ s with newConn := .empty }, true)
  | .empty => (s, false)
  | .pending => (s, false)

/-- Rust: `Pool::take_conn` (src/pool/mod.rs). -/
def take_conn (s : PoolState) : PoolState × Bool :=
  if 0 < s.idle then ({ s with idle := s.idle - 1, ongoing := s.ongoing + 1 }, true)
  else (s, false)

/-- Rust: `Pool::poll` (src/pool/mod.rs).  When no handle is available
and the bound allows it, a new connection future is enqueued; the
recursive `self.poll(cx)` then finds the fresh future pending and
registers the waker, so its net state effect is the enqueue itself. -/
def pool_poll (s : PoolState) : PoolState :=
  let hf := handle_futures s
  if hf.2 then hf.1
  else
    let tk := take_conn hf.1
    if tk.2 then tk.1
    else if conn_count tk.1 < POOL_MAX ∧ tk.1.newConn = .empty then
      { tk.1 with newConn := .pending }
    else tk.1

/-- Rust: `Pool::return_conn` (src/pool/mod.rs): push back to `idle`
only when below `min` and the handle was attached; always decrement
`ongoing`. -/
def pool_release (attached : Bool) (s : PoolState) : PoolState :=
  { s with idle := if s.idle < POOL_MIN ∧ attached then s.idle + 1 else s.idle,
           ongoing := s.ongoing - 1 }

/-- One step of the pool: an acquisition poll, a completion (successful
or failed) of the in-flight connection future, or the release performed
when a checked-out handle is dropped (hence `ongoing ≥ 1`). -/
inductive PoolStep : PoolState → PoolState → Prop where
  | poll (s : PoolState) : PoolStep s (pool_poll s)
  | completeOk (s : PoolState) (h : s.newConn = .pending) :
      PoolStep s { s with newConn := .ready }
  | completeErr (s : PoolState) (h : s.newConn = .pending) :
      PoolStep s { s with newConn := .readyErr }
  | release (attached : Bool) (s : PoolState) (h : 1 ≤ s.ongoing) :
      PoolStep s (pool_release attached s)

def pool_init : PoolState := ⟨.empty, 0, 0⟩

def PoolReachable : PoolState → Prop := Relation.ReflTransGen PoolStep pool_init

lemma pool_step_preserves {s t : PoolState}
    (hI : conn_count s ≤ POOL_MAX ∧ s.idle ≤ POOL_MIN)
    (hstep : PoolStep s t) :
    conn_count t ≤ POOL_MAX ∧ t.idle ≤ POOL_MIN := by
  obtain ⟨h1, h2⟩ := hI
  cases hstep with
  | poll s =>
    rw [pool_poll]
    cases hnc : s.newConn <;>
      simp_all [handle_futures, take_conn, conn_count, new_len, POOL_MAX, POOL_MIN] <;>
      first
        | omega
        | (split_ifs <;> simp_all <;> omega)
  | completeOk s h =>
    simp_all [conn_count, new_len, h]
  | completeErr s h =>
    simp_all [conn_count, new_len, h]
  | release attached s h =>
    simp_all [pool_release, conn_count, new_len, POOL_MIN, POOL_MAX]
    first
      | omega
      | (split_ifs <;> simp_all <;> omega)

/-- C8: Pool accounting invariant.  In every state reachable from the
fresh pool by interleaving acquisition polls (`Pool::poll`, including
`handle_futures` and `take_conn`), connection-future completions, and
releases (`Pool::return_conn`), the count `|idle| + |new| + ongoing`
(`Inner::conn_count`) stays at most `max = 10`; the idle queue never
exceeds `min = 5`; and in particular immediately after any release the
idle queue holds at most `min` handles. -/
theorem pool_accounting (s : PoolState) (h : PoolReachable s) :
    conn_count s ≤ POOL_MAX ∧ s.idle ≤ POOL_MIN ∧
    (∀ attached, 1 ≤ s.ongoing → (pool_release attached s).idle ≤ POOL_MIN) := by
  have hinv : conn_count s ≤ POOL_MAX ∧ s.idle ≤ POOL_MIN := by
    induction h with
    | refl => simp [pool_init, conn_count, new_len, POOL_MAX, POOL_MIN]
    | tail _ hstep ih => exact pool_step_preserves ih hstep
  refine ⟨hinv.1, hinv.2, fun attached _ => ?_⟩
  have h2 := hinv.2
  rw [pool_release]
  simp only [POOL_MIN] at *
  first
    | omega
    | (split_ifs <;> simp <;> omega)

theorem pool_accounting_witness :
    conn_count pool_init ≤ POOL_MAX ∧ pool_init.idle ≤ POOL_MIN :=
  ⟨(pool_accounting pool_init Relation.ReflTransGen.refl).1,
   (pool_accounting pool_init Relation.ReflTransGen.refl).2.1⟩

/-! ## Concat columns

Embedding of src/column/concat.rs: the prefix-sum index built by
`build_index`, the binary search `find_chunk`, and `ConcatColumnData`. -/

/-- Rust: the loop of `build_index` (src/column/concat.rs), carrying the
running accumulator. -/
def build_index_from (acc : Nat) : List Nat → List Nat
  | [] => [acc]
  | size :: rest => acc :: build_index_from (acc + size) rest

def build_index (sizes : List Nat) : List Nat := build_index_from 0 sizes

/-- Rust: the `while lo < hi` loop of `find_chunk`
(src/column/concat.rs); list reads model the panicking `index[..]`
accesses, which stay in bounds under the preconditions of
`find_chunk_loop_correct`. -/
def find_chunk_loop (index : List Nat) (ix : Nat) (lo hi : Nat) : Nat :=
  if lo < hi then
    if index.getD lo 0 = index.getD (lo + 1) 0 then
      find_chunk_loop index ix (lo + 1) hi
    else
      let mid := lo + (hi - lo) / 2
      if ix < index.getD mid 0 then find_chunk_loop index ix lo mid
      else if index.getD (mid + 1) 0 ≤ ix then find_chunk_loop index ix (mid + 1) hi
      else mid
  else 0
  termination_by hi - lo
  decreasing_by
    · omega
    · omega
    · omega

def find_chunk (index : List Nat) (ix : Nat) : Nat :=
  find_chunk_loop index ix 0 (index.length - 1)

lemma find_chunk_loop_correct :
    ∀ (index : List Nat) (ix lo hi : Nat), lo < hi →
    index.getD lo 0 ≤ ix → ix < index.getD hi 0 →
    lo ≤ find_chunk_loop index ix lo hi ∧ find_chunk_loop index ix lo hi < hi ∧
    index.getD (find_chunk_loop index ix lo hi) 0 ≤ ix ∧
    ix < index.getD (find_chunk_loop index ix lo hi + 1) 0 := by
  intro index ix lo hi
  induction lo, hi using find_chunk_loop.induct index ix with
  | case1 lo hi hlt heq ih =>
    intro _ hle hup
    rw [find_chunk_loop, if_pos hlt, if_pos heq]
    have hle' : index.getD (lo + 1) 0 ≤ ix := heq ▸ hle
    have hne : lo + 1 ≠ hi := by
      intro hcontra
      rw [hcontra] at hle'
      omega
    have := ih (by omega) hle' hup
    omega
  | case2 lo hi hlt heq mid hmidlt ih =>
    intro _ hle hup
    have hmideq : lo + (hi - lo) / 2 = mid := rfl
    rw [find_chunk_loop, if_pos hlt, if_neg heq]
    simp only [hmideq, if_pos hmidlt]
    have hlomid : lo < mid := by
      rcases Nat.lt_or_ge lo mid with h | h
      · exact h
      · have : mid = lo := by omega
        rw [this] at hmidlt
        omega
    have := ih hlomid hle hmidlt
    omega
  | case3 lo hi hlt heq mid hmidge hmge ih =>
    intro _ hle hup
    have hmideq : lo + (hi - lo) / 2 = mid := rfl
    rw [find_chunk_loop, if_pos hlt, if_neg heq]
    simp only [hmideq, if_neg hmidge, if_pos hmge]
    have hmidhi : mid + 1 < hi := by
      have hmidlt : mid < hi := by omega
      rcases Nat.lt_or_ge (mid + 1) hi with h | h
      · exact h
      · have : mid + 1 = hi := by omega
        rw [this] at hmge
        omega
    have := ih hmidhi hmge hup
    omega
  | case4 lo hi hlt heq mid hmidge hmlt =>
    intro _ hle hup
    have hmideq : lo + (hi - lo) / 2 = mid := rfl
    rw [find_chunk_loop, if_pos hlt, if_neg heq]
    simp only [hmideq, if_neg hmidge, if_neg hmlt]
    have : mid < hi := by omega
    omega
  | case5 lo hi hge =>
    intro hlt
    omega

lemma build_index_from_getD (sizes : List Nat) : ∀ (acc k : Nat), k ≤ sizes.length →
    (build_index_from acc sizes).getD k 0 = acc + (sizes.take k).sum := by
  induction sizes with
  | nil =>
    intro acc k hk
    have hk0 : k = 0 := by simpa using hk
    subst hk0
    simp [build_index_from]
  | cons s rest ih =>
    intro acc k hk
    cases k with
    | zero => simp [build_index_from]
    | succ k' =>
      rw [build_index_from]
      simp only [List.getD_cons_succ, List.take_succ_cons, List.sum_cons]
      rw [ih (acc + s) k' (by simpa using hk)]
      omega

lemma build_index_length (sizes : List Nat) :
    (build_index sizes).length = sizes.length + 1 := by
  rw [build_index]
  generalize 0 = acc
  induction sizes generalizing acc with
  | nil => simp [build_index_from]
  | cons s rest ih => simp [build_index_from, ih]

lemma build_index_getD (sizes : List Nat) (k : Nat) (hk : k ≤ sizes.length) :
    (build_index sizes).getD k 0 = (sizes.take k).sum := by
  rw [build_index, build_index_from_getD sizes 0 k hk, Nat.zero_add]

lemma build_index_from_getLast (sizes : List Nat) : ∀ acc : Nat,
    (build_index_from acc sizes).getLast? = some (acc + sizes.sum) := by
  induction sizes with
  | nil => intro acc; simp [build_index_from]
  | cons s rest ih =>
    intro acc
    rw [build_index_from, List.getLast?_cons, ih (acc + s)]
    simp
    omega

lemma take_sum_mono (l : List Nat) (a b : Nat) (hab : a ≤ b) :
    (l.take a).sum ≤ (l.take b).sum := by
  have : l.take b = l.take a ++ (l.drop a).take (b - a) := by
    rw [← List.take_add]
    congr 1
    omega
  rw [this, List.sum_append]
  omega

/-- Rust: `struct ConcatColumnData` (src/column/concat.rs). -/
structure ConcatColumnData where
  data : List ColumnData
  index : List Nat

def defaultColumnData : ColumnData := ⟨.uint8, 0, fun _ => .uint8 0, []⟩

/-- Rust: `ConcatColumnData::concat` (src/column/concat.rs);
`check_columns` panics on an empty or mixed-type input, which the claim
excludes by hypothesis. -/
def ConcatColumnData.concat (cols : List ColumnData) : ConcatColumnData :=
  { data := cols, index := build_index (cols.map ColumnData.len) }

def ConcatColumnData.sql_type (c : ConcatColumnData) : SqlType :=
  (c.data.getD 0 defaultColumnData).sqlType

def ConcatColumnData.len (c : ConcatColumnData) : Nat :=
  (c.index.getLast?).getD 0

/-- Rust: `ConcatColumnData::at` (src/column/concat.rs). -/
def ConcatColumnData.atRow (c : ConcatColumnData) (i : Nat) : ValueRef :=
  let chunk_index := find_chunk c.index i
  (c.data.getD chunk_index defaultColumnData).atRow (i - c.index.getD chunk_index 0)

/-- C3: Concat indexing.  For a non-empty list of columns sharing one
`SqlType` and any global row index `i` below the total length, the
concatenated column's `len()` equals the sum of the parts' lengths, and
`at(i)` equals `Cs[k].at(i - prefix-sum k)` where `k` is the unique index
with `prefix-sum k <= i < prefix-sum (k+1)` (the prefix sums being
`build_index` of the part lengths, searched by `find_chunk`). -/
theorem concat_indexing (cols : List ColumnData) (t : SqlType)
    (hne : cols ≠ []) (hty : ∀ c ∈ cols, c.sqlType = t)
    (i : Nat) (hi : i < (cols.map ColumnData.len).sum) :
    (ConcatColumnData.concat cols).len = (cols.map ColumnData.len).sum ∧
    ∃ k, k < cols.length ∧
      (build_index (cols.map ColumnData.len)).getD k 0 ≤ i ∧
      i < (build_index (cols.map ColumnData.len)).getD (k + 1) 0 ∧
      (∀ k', k' < cols.length →
        (build_index (cols.map ColumnData.len)).getD k' 0 ≤ i →
        i < (build_index (cols.map ColumnData.len)).getD (k' + 1) 0 → k' = k) ∧
      (ConcatColumnData.concat cols).atRow i =
        (cols.getD k defaultColumnData).atRow
          (i - (build_index (cols.map ColumnData.len)).getD k 0) := by
  set sizes := cols.map ColumnData.len with hsizes
  have hlen : sizes.length = cols.length := by simp [hsizes]
  have hn : 1 ≤ cols.length := by
    cases cols with
    | nil => exact absurd rfl hne
    | cons c cs => simp
  constructor
  · rw [ConcatColumnData.len, ConcatColumnData.concat]
    rw [build_index, build_index_from_getLast]
    simp
  · have hcorrect := find_chunk_loop_correct (build_index sizes) i 0
      ((build_index sizes).length - 1) (by rw [build_index_length]; omega)
      (by rw [build_index_getD sizes 0 (by omega)]; simp)
      (by
        rw [build_index_length]
        simp only [Nat.add_sub_cancel]
        rw [build_index_getD sizes sizes.length (le_refl _), List.take_length]
        exact hi)
    set k := find_chunk_loop (build_index sizes) i 0 ((build_index sizes).length - 1)
      with hkdef
    have hkfc : find_chunk (build_index sizes) i = k := rfl
    obtain ⟨hk0, hkhi, hkle, hklt⟩ := hcorrect
    rw [build_index_length] at hkhi
    simp only [Nat.add_sub_cancel] at hkhi
    refine ⟨k, by omega, hkle, hklt, ?_, ?_⟩
    · intro k' hk' hle' hlt'
      by_cases hcmp : k' < k
      · exfalso
        have hstep : (build_index sizes).getD (k' + 1) 0 ≤ (build_index sizes).getD k 0 := by
          rw [build_index_getD sizes (k' + 1) (by omega), build_index_getD sizes k (by omega)]
          exact take_sum_mono sizes (k' + 1) k (by omega)
        omega
      · by_cases hcmp2 : k < k'
        · exfalso
          have hstep : (build_index sizes).getD (k + 1) 0 ≤ (build_index sizes).getD k' 0 := by
            rw [build_index_getD sizes (k + 1) (by omega), build_index_getD sizes k' (by omega)]
            exact take_sum_mono sizes (k + 1) k' (by omega)
          omega
        · omega
    · rw [ConcatColumnData.atRow, ConcatColumnData.concat]
      simp only
      rw [hkfc]

theorem concat_indexing_witness :
    (ConcatColumnData.concat
        [⟨.uint32, 2, fun j => .uint32 j, []⟩,
         ⟨.uint32, 3, fun j => .uint32 (10 + j), []⟩]).len = 5 ∧
    (ConcatColumnData.concat
        [⟨.uint32, 2, fun j => .uint32 j, []⟩,
         ⟨.uint32, 3, fun j => .uint32 (10 + j), []⟩]).atRow 3 = .uint32 11 := by
  have h := concat_indexing
    [⟨.uint32, 2, fun j => .uint32 j, []⟩, ⟨.uint32, 3, fun j => .uint32 (10 + j), []⟩]
    .uint32 (by simp) (by intro c hc; simp at hc; rcases hc with rfl | rfl <;> rfl) 3
    (by norm_num)
  obtain ⟨hlen, k, hk, hle, hlt, huniq, hat⟩ := h
  refine ⟨by simpa using hlen, ?_⟩
  have hk1 : k = 1 := by
    have := huniq 1 (by norm_num) (by norm_num [build_index, build_index_from])
      (by norm_num [build_index, build_index_from])
    omega
  rw [hat, hk1]
  norm_num [build_index, build_index_from]

/-! ## Column factory dispatch

Embedding of `load_data` (src/column/factory.rs).  Type names are byte
lists; the `match_str!` chain compares with the byte-wise
`eq_ignore_ascii_case` of the Rust standard library.  The loaders only
record which column kind is built with which parameters — actual byte
reading is orthogonal to the dispatch claim.  The recursive descent into
the inner type for `Nullable(..)` and `Array(..)` goes through
`NullableColumnData::load` and `ArrayColumnData::load`; those files
(src/column/nullable.rs, src/column/array.rs) are absent from the tree,
and their recursion into `load_data` on the inner type name is modelled
from the spec. -/

/-- Rust: `u8::to_ascii_lowercase`. -/
def to_ascii_lowercase (b : Nat) : Nat :=
  if 65 ≤ b ∧ b ≤ 90 then b + 32 else b

/-- Rust: `str::eq_ignore_ascii_case`: equal lengths and byte-wise
case-insensitive equality. -/
def eq_ignore_ascii_case (a b : List Nat) : Bool :=
  a.length == b.length &&
    (a.zip b).all fun p => to_ascii_lowercase p.1 == to_ascii_lowercase p.2

inductive PrimType where
  | u8 | u16 | u32 | u64 | i8 | i16 | i32 | i64 | i256 | f32 | f64
  deriving DecidableEq

inductive AliasHit where
  | vec (t : PrimType)
  | string
  deriving DecidableEq

inductive LoadedCol where
  | vec (t : PrimType)
  | string
  | fixedString (len : Nat)
  | nullable (inner : LoadedCol)
  | array (inner : LoadedCol)
  deriving DecidableEq

inductive LoadErr where
  | unsupportedColumnType (name : List Nat)
  | panicked
  deriving DecidableEq

/-- Rust: the `match_str!` chain of `load_data` (src/column/factory.rs),
in source order. -/
def match_alias (n : List Nat) : Option AliasHit :=
  if eq_ignore_ascii_case n (str_bytes "UInt8") then some (.vec .u8)
  else if eq_ignore_ascii_case n (str_bytes "UInt16") then some (.vec .u16)
  else if eq_ignore_ascii_case n (str_bytes "UInt32") then some (.vec .u32)
  else if eq_ignore_ascii_case n (str_bytes "UInt64") then some (.vec .u64)
  else if eq_ignore_ascii_case n (str_bytes "Int8") then some (.vec .i8)
  else if eq_ignore_ascii_case n (str_bytes "TinyInt") then some (.vec .i8)
  else if eq_ignore_ascii_case n (str_bytes "Int16") then some (.vec .i16)
  else if eq_ignore_ascii_case n (str_bytes "SmallInt") then some (.vec .i16)
  else if eq_ignore_ascii_case n (str_bytes "Int32") then some (.vec .i32)
  else if eq_ignore_ascii_case n (str_bytes "Int") then some (.vec .i32)
  else if eq_ignore_ascii_case n (str_bytes "Integer") then some (.vec .i32)
  else if eq_ignore_ascii_case n (str_bytes "Int64") then some (.vec .i64)
  else if eq_ignore_ascii_case n (str_bytes "BigInt") then some (.vec .i64)
  else if eq_ignore_ascii_case n (str_bytes "Float32") then some (.vec .f32)
  else if eq_ignore_ascii_case n (str_bytes "Float") then some (.vec .f32)
  else if eq_ignore_ascii_case n (str_bytes "Float64") then some (.vec .f64)
  else if eq_ignore_ascii_case n (str_bytes "Double") then some (.vec .f64)
  else if eq_ignore_ascii_case n (str_bytes "Int256") then some (.vec .i256)
  else if eq_ignore_ascii_case n (str_bytes "String") then some .string
  else if eq_ignore_ascii_case n (str_bytes "Char") then some .string
  else if eq_ignore_ascii_case n (str_bytes "Varchar") then some .string
  else if eq_ignore_ascii_case n (str_bytes "Text") then some .string
  else if eq_ignore_ascii_case n (str_bytes "TinyText") then some .string
  else if eq_ignore_ascii_case n (str_bytes "MediumText") then some .string
  else if eq_ignore_ascii_case n (str_bytes "LongText") then some .string
  else if eq_ignore_ascii_case n (str_bytes "Blob") then some .string
  else if eq_ignore_ascii_case n (str_bytes "TinyBlob") then some .string
  else if eq_ignore_ascii_case n (str_bytes "MediumBlob") then some .string
  else if eq_ignore_ascii_case n (str_bytes "LongBlob") then some .string
  else none

/-- Rust: `str::parse::<usize>`: an optional leading plus sign, then one
or more decimal digits, rejecting values beyond the 64-bit `usize`
range. -/
def parse_usize (s : List Nat) : Option Nat :=
  let digits := match s with
    | 43 :: rest => rest
    | _ => s
  if digits.isEmpty then none
  else if digits.all (fun c => decide (48 ≤ c ∧ c ≤ 57)) then
    let v := digits.foldl (fun acc c => acc * 10 + (c - 48)) 0
    if v < 2 ^ 64 then some v else none
  else none

/-- Rust: `parse_nullable_type` (src/column/factory.rs); the `.error`
case models the slicing panic of `&source[9..source.len() - 1]` when the
name is shorter than 10 bytes. -/
def parse_nullable_type (source : List Nat) : Except Unit (Option (List Nat)) :=
  if (str_bytes "Nullable").isPrefixOf source then
    if source.length < 10 then .error ()
    else if (str_bytes "Nullable").isPrefixOf ((source.take (source.length - 1)).drop 9)
      then .ok none
    else .ok (some ((source.take (source.length - 1)).drop 9))
  else .ok none

/-- Rust: `parse_fixed_string` (src/column/factory.rs): note the prefix
check covers 11 bytes but the slice starts at byte 12. -/
def parse_fixed_string (source : List Nat) : Except Unit (Option Nat) :=
  if (str_bytes "FixedString").isPrefixOf source then
    if source.length < 13 then .error ()
    else .ok (parse_usize ((source.take (source.length - 1)).drop 12))
  else .ok none

/-- Rust: `parse_array_type` (src/column/factory.rs). -/
def parse_array_type (source : List Nat) : Except Unit (Option (List Nat)) :=
  if (str_bytes "Array").isPrefixOf source then
    if source.length < 7 then .error ()
    else .ok (some ((source.take (source.length - 1)).drop 6))
  else .ok none

lemma parse_nullable_type_length {tn inner : List Nat}
    (h : parse_nullable_type tn = .ok (some inner)) : inner.length < tn.length := by
  rw [parse_nullable_type] at h
  by_cases h1 : (str_bytes "Nullable").isPrefixOf tn
  · rw [if_pos h1] at h
    by_cases h2 : tn.length < 10
    · rw [if_pos h2] at h
      cases h
    · rw [if_neg h2] at h
      by_cases h3 : (str_bytes "Nullable").isPrefixOf ((tn.take (tn.length - 1)).drop 9)
      · rw [if_pos h3] at h
        cases h
      · rw [if_neg h3] at h
        cases h
        simp only [List.length_drop, List.length_take]
        omega
  · rw [if_neg h1] at h
    cases h

lemma parse_array_type_length {tn inner : List Nat}
    (h : parse_array_type tn = .ok (some inner)) : inner.length < tn.length := by
  rw [parse_array_type] at h
  by_cases h1 : (str_bytes "Array").isPrefixOf tn
  · rw [if_pos h1] at h
    by_cases h2 : tn.length < 7
    · rw [if_pos h2] at h
      cases h
    · rw [if_neg h2] at h
      cases h
      simp only [List.length_drop, List.length_take]
      omega
  · rw [if_neg h1] at h
    cases h

/-- Rust: `load_data` (src/column/factory.rs): the alias chain, then the
nullable / fixed-string / array fallbacks in source order, with
`UnsupportedColumnType` for everything else.  The recursive calls model
the inner loads of `NullableColumnData::load` and
`ArrayColumnData::load` (modelled from the spec, see the section
comment). -/
def load_data (type_name : List Nat) : Except LoadErr LoadedCol :=
  match match_alias type_name with
  | some (.vec t) => .ok (.vec t)
  | some .string => .ok .string
  | none =>
    match hn : parse_nullable_type type_name with
    | .error _ => .error .panicked
    | .ok (some inner) =>
      match load_data inner with
      | .error e => .error e
      | .ok c => .ok (.nullable c)
    | .ok none =>
      match parse_fixed_string type_name with
      | .error _ => .error .panicked
      | .ok (some n) => .ok (.fixedString n)
      | .ok none =>
        match ha : parse_array_type type_name with
        | .error _ => .error .panicked
        | .ok (some inner) =>
          match load_data inner with
          | .error e => .error e
          | .ok c => .ok (.array c)
        | .ok none => .error (.unsupportedColumnType type_name)
  termination_by type_name.length
  decreasing_by
    · exact parse_nullable_type_length hn
    · exact parse_array_type_length ha

lemma eqic_true_iff (a : List Nat) : ∀ b : List Nat,
    eq_ignore_ascii_case a b = true ↔
      a.map to_ascii_lowercase = b.map to_ascii_lowercase := by
  induction a with
  | nil => intro b; cases b <;> simp [eq_ignore_ascii_case]
  | cons x xs ih =>
    intro b
    cases b with
    | nil => simp [eq_ignore_ascii_case]
    | cons y ys =>
      have ihy := ih ys
      rw [eq_ignore_ascii_case] at ihy ⊢
      simp only [List.zip_cons_cons, List.all_cons, List.length_cons, List.map_cons,
        Bool.and_eq_true, beq_iff_eq, List.cons.injEq] at ihy ⊢
      constructor
      · rintro ⟨hlen, hxy, hall⟩
        exact ⟨hxy, ihy.1 ⟨by omega, hall⟩⟩
      · rintro ⟨hxy, hmap⟩
        obtain ⟨hlen, hall⟩ := ihy.2 hmap
        exact ⟨by omega, hxy, hall⟩

lemma eqic_congr_left (n₁ n₂ a : List Nat)
    (h : n₁.map to_ascii_lowercase = n₂.map to_ascii_lowercase) :
    eq_ignore_ascii_case n₁ a = eq_ignore_ascii_case n₂ a := by
  cases h1 : eq_ignore_ascii_case n₁ a <;> cases h2 : eq_ignore_ascii_case n₂ a
  · rfl
  · exfalso
    rw [eqic_true_iff] at h2
    have hc : eq_ignore_ascii_case n₁ a = true := (eqic_true_iff _ _).2 (h.trans h2)
    simp [h1] at hc
  · exfalso
    rw [eqic_true_iff] at h1
    have hc : eq_ignore_ascii_case n₂ a = true := (eqic_true_iff _ _).2 (h.symm.trans h1)
    simp [h2] at hc
  · rfl

lemma match_alias_congr (n₁ n₂ : List Nat)
    (h : n₁.map to_ascii_lowercase = n₂.map to_ascii_lowercase) :
    match_alias n₁ = match_alias n₂ := by
  have he : ∀ a, eq_ignore_ascii_case n₁ a = eq_ignore_ascii_case n₂ a :=
    fun a => eqic_congr_left n₁ n₂ a h
  simp only [match_alias, he]

lemma match_alias_cons_N (rest : List Nat) : match_alias (78 :: rest) = none := by
  simp [match_alias, eq_ignore_ascii_case, str_bytes, to_ascii_lowercase]

lemma match_alias_cons_A (rest : List Nat) : match_alias (65 :: rest) = none := by
  simp [match_alias, eq_ignore_ascii_case, str_bytes, to_ascii_lowercase]

lemma match_alias_cons_Fi (rest : List Nat) :
    match_alias (70 :: 105 :: rest) = none := by
  simp [match_alias, eq_ignore_ascii_case, str_bytes, to_ascii_lowercase]

lemma load_data_eq (tn : List Nat) :
    load_data tn =
      match match_alias tn with
      | some (.vec t) => .ok (.vec t)
      | some .string => .ok .string
      | none =>
        match parse_nullable_type tn with
        | .error _ => .error .panicked
        | .ok (some inner) =>
          match load_data inner with
          | .error e => .error e
          | .ok c => .ok (.nullable c)
        | .ok none =>
          match parse_fixed_string tn with
          | .error _ => .error .panicked
          | .ok (some n) => .ok (.fixedString n)
          | .ok none =>
            match parse_array_type tn with
            | .error _ => .error .panicked
            | .ok (some inner) =>
              match load_data inner with
              | .error e => .error e
              | .ok c => .ok (.array c)
            | .ok none => .error (.unsupportedColumnType tn) := by
  rw [load_data]
  cases match_alias tn with
  | some hit => cases hit <;> rfl
  | none =>
    cases hpn : parse_nullable_type tn with
    | error e => rfl
    | ok o =>
      cases o with
      | some inner => rfl
      | none =>
        cases parse_fixed_string tn with
        | error e => rfl
        | ok o2 =>
          cases o2 with
          | some n => rfl
          | none =>
            cases hpa : parse_array_type tn with
            | error e => rfl
            | ok o3 => cases o3 <;> rfl

lemma isPrefixOf_append_self (p t : List Nat) : p.isPrefixOf (p ++ t) = true := by
  induction p with
  | nil => simp [List.isPrefixOf]
  | cons a as ih => simp [List.isPrefixOf, ih]

lemma slice_concat (pre inner : List Nat) (x : Nat) :
    ((pre ++ inner ++ [x]).take ((pre ++ inner ++ [x]).length - 1)).drop pre.length
      = inner := by
  have hlen : (pre ++ inner ++ [x]).length = pre.length + inner.length + 1 := by
    simp
    omega
  rw [hlen]
  have h2 : pre.length + inner.length + 1 - 1 = (pre ++ inner).length := by simp
  rw [h2]
  rw [List.take_left, List.drop_left]

lemma load_data_nullable_general (inner : List Nat)
    (hnn : (str_bytes "Nullable").isPrefixOf inner = false) :
    load_data (str_bytes "Nullable(" ++ inner ++ str_bytes ")") =
      (load_data inner).map LoadedCol.nullable := by
  set full := str_bytes "Nullable(" ++ inner ++ str_bytes ")" with hfull
  have hma : match_alias full = none := by
    rw [hfull, show str_bytes "Nullable(" = 78 :: [117, 108, 108, 97, 98, 108, 101, 40]
      from rfl]
    simp only [List.cons_append]
    exact match_alias_cons_N _
  have hpre : (str_bytes "Nullable").isPrefixOf full = true := by
    rw [hfull, show str_bytes "Nullable(" = str_bytes "Nullable" ++ [40] from rfl,
      List.append_assoc, List.append_assoc]
    exact isPrefixOf_append_self _ _
  have hlen : full.length = inner.length + 10 := by
    rw [hfull]
    simp [str_bytes]
  have hslice : (full.take (full.length - 1)).drop 9 = inner := by
    rw [hfull, show str_bytes ")" = [41] from rfl]
    have h := slice_concat (str_bytes "Nullable(") inner 41
    rwa [show (str_bytes "Nullable(").length = 9 from rfl] at h
  have hpn : parse_nullable_type full = .ok (some inner) := by
    rw [parse_nullable_type, if_pos hpre, if_neg (by omega), hslice]
    rw [if_neg (by simp [hnn])]
  rw [load_data_eq, hma, hpn]
  cases hld : load_data inner <;> simp [hld, Except.map]

lemma load_data_nullable_nested (inner : List Nat)
    (hnn : (str_bytes "Nullable").isPrefixOf inner = true) :
    load_data (str_bytes "Nullable(" ++ inner ++ str_bytes ")") =
      .error (.unsupportedColumnType (str_bytes "Nullable(" ++ inner ++ str_bytes ")")) := by
  set full := str_bytes "Nullable(" ++ inner ++ str_bytes ")" with hfull
  have hma : match_alias full = none := by
    rw [hfull, show str_bytes "Nullable(" = 78 :: [117, 108, 108, 97, 98, 108, 101, 40]
      from rfl]
    simp only [List.cons_append]
    exact match_alias_cons_N _
  have hpre : (str_bytes "Nullable").isPrefixOf full = true := by
    rw [hfull, show str_bytes "Nullable(" = str_bytes "Nullable" ++ [40] from rfl,
      List.append_assoc, List.append_assoc]
    exact isPrefixOf_append_self _ _
  have hlen : full.length = inner.length + 10 := by
    rw [hfull]
    simp [str_bytes]
  have hslice : (full.take (full.length - 1)).drop 9 = inner := by
    rw [hfull, show str_bytes ")" = [41] from rfl]
    have h := slice_concat (str_bytes "Nullable(") inner 41
    rwa [show (str_bytes "Nullable(").length = 9 from rfl] at h
  have hpn : parse_nullable_type full = .ok none := by
    rw [parse_nullable_type, if_pos hpre, if_neg (by omega), hslice, if_pos hnn]
  have hfs : parse_fixed_string full = .ok none := by
    rw [parse_fixed_string]
    rw [if_neg ?hnp]
    case hnp =>
      rw [hfull, show str_bytes "Nullable(" = 78 :: [117, 108, 108, 97, 98, 108, 101, 40]
        from rfl]
      simp only [List.cons_append]
      simp [List.isPrefixOf, str_bytes]
  have hpa : parse_array_type full = .ok none := by
    rw [parse_array_type]
    rw [if_neg ?hap]
    case hap =>
      rw [hfull, show str_bytes "Nullable(" = 78 :: [117, 108, 108, 97, 98, 108, 101, 40]
        from rfl]
      simp only [List.cons_append]
      simp [List.isPrefixOf, str_bytes]
  rw [load_data_eq, hma, hpn, hfs, hpa]

lemma load_data_array_general (inner : List Nat) :
    load_data (str_bytes "Array(" ++ inner ++ str_bytes ")") =
      (load_data inner).map LoadedCol.array := by
  set full := str_bytes "Array(" ++ inner ++ str_bytes ")" with hfull
  have hma : match_alias full = none := by
    rw [hfull, show str_bytes "Array(" = 65 :: [114, 114, 97, 121, 40] from rfl]
    simp only [List.cons_append]
    exact match_alias_cons_A _
  have hpn : parse_nullable_type full = .ok none := by
    rw [parse_nullable_type, if_neg ?hnp]
    case hnp =>
      rw [hfull, show str_bytes "Array(" = 65 :: [114, 114, 97, 121, 40] from rfl]
      simp only [List.cons_append]
      simp [List.isPrefixOf, str_bytes]
  have hfs : parse_fixed_string full = .ok none := by
    rw [parse_fixed_string, if_neg ?hfp]
    case hfp =>
      rw [hfull, show str_bytes "Array(" = 65 :: [114, 114, 97, 121, 40] from rfl]
      simp only [List.cons_append]
      simp [List.isPrefixOf, str_bytes]
  have hpre : (str_bytes "Array").isPrefixOf full = true := by
    rw [hfull, show str_bytes "Array(" = str_bytes "Array" ++ [40] from rfl,
      List.append_assoc, List.append_assoc]
    exact isPrefixOf_append_self _ _
  have hlen : full.length = inner.length + 7 := by
    rw [hfull]
    simp [str_bytes]
  have hslice : (full.take (full.length - 1)).drop 6 = inner := by
    rw [hfull, show str_bytes ")" = [41] from rfl]
    have h := slice_concat (str_bytes "Array(") inner 41
    rwa [show (str_bytes "Array(").length = 6 from rfl] at h
  have hpa : parse_array_type full = .ok (some inner) := by
    rw [parse_array_type, if_pos hpre, if_neg (by omega), hslice]
  rw [load_data_eq, hma, hpn, hfs, hpa]
  cases hld : load_data inner <;> simp [hld, Except.map]

lemma load_data_fixed_string_general (digits : List Nat) :
    load_data (str_bytes "FixedString(" ++ digits ++ str_bytes ")") =
      match parse_usize digits with
      | some n => .ok (.fixedString n)
      | none => .error (.unsupportedColumnType
          (str_bytes "FixedString(" ++ digits ++ str_bytes ")")) := by
  set full := str_bytes "FixedString(" ++ digits ++ str_bytes ")" with hfull
  have hma : match_alias full = none := by
    rw [hfull, show str_bytes "FixedString(" =
      70 :: 105 :: [120, 101, 100, 83, 116, 114, 105, 110, 103, 40] from rfl]
    simp only [List.cons_append]
    exact match_alias_cons_Fi _
  have hpn : parse_nullable_type full = .ok none := by
    rw [parse_nullable_type, if_neg ?hnp]
    case hnp =>
      rw [hfull, show str_bytes "FixedString(" =
        70 :: [105, 120, 101, 100, 83, 116, 114, 105, 110, 103, 40] from rfl]
      simp only [List.cons_append]
      simp [List.isPrefixOf, str_bytes]
  have hpre : (str_bytes "FixedString").isPrefixOf full = true := by
    rw [hfull, show str_bytes "FixedString(" = str_bytes "FixedString" ++ [40] from rfl,
      List.append_assoc, List.append_assoc]
    exact isPrefixOf_append_self _ _
  have hlen : full.length = digits.length + 13 := by
    rw [hfull]
    simp [str_bytes]
  have hslice : (full.take (full.length - 1)).drop 12 = digits := by
    rw [hfull, show str_bytes ")" = [41] from rfl]
    have h := slice_concat (str_bytes "FixedString(") digits 41
    rwa [show (str_bytes "FixedString(").length = 12 from rfl] at h
  have hfs : parse_fixed_string full = .ok (parse_usize digits) := by
    rw [parse_fixed_string, if_pos hpre, if_neg (by omega), hslice]
  cases hpu : parse_usize digits with
  | some n =>
    rw [hpu] at hfs
    rw [load_data_eq, hma, hpn, hfs]
  | none =>
    rw [hpu] at hfs
    have hpa : parse_array_type full = .ok none := by
      rw [parse_array_type, if_neg ?hap]
      case hap =>
        rw [hfull, show str_bytes "FixedString(" =
          70 :: [105, 120, 101, 100, 83, 116, 114, 105, 110, 103, 40] from rfl]
        simp only [List.cons_append]
        simp [List.isPrefixOf, str_bytes]
    rw [load_data_eq, hma, hpn, hfs, hpa]

lemma load_data_unknown (tn : List Nat)
    (hma : match_alias tn = none)
    (h1 : (str_bytes "Nullable").isPrefixOf tn = false)
    (h2 : (str_bytes "FixedString").isPrefixOf tn = false)
    (h3 : (str_bytes "Array").isPrefixOf tn = false) :
    load_data tn = .error (.unsupportedColumnType tn) := by
  rw [load_data_eq, hma]
  rw [show parse_nullable_type tn = .ok none by
    rw [parse_nullable_type, if_neg (by simp [h1])]]
  rw [show parse_fixed_string tn = .ok none by
    rw [parse_fixed_string, if_neg (by simp [h2])]]
  rw [show parse_array_type tn = .ok none by
    rw [parse_array_type, if_neg (by simp [h3])]]

/-- C5 (amended): Column type-name dispatch.  The alias table of
`load_data` dispatches case-insensitively (its result depends only on the
ASCII-lowercased name) and maps every listed spelling to the
corresponding loader; any name matching a listed alias loads that column
kind; names of the exact shape `Nullable(X)` load `X` recursively inside
a nullable column, with `Nullable(Nullable(...))` rejected as
`UnsupportedColumnType`; names of the exact shape `Array(X)` load `X`
recursively inside an array column; names of the shape `FixedString(N)`
load a fixed-string column whenever `N` parses as a decimal `usize`
(zero included — positivity is not enforced); and a name that matches no
alias and none of the case-sensitive prefixes `"Nullable"`,
`"FixedString"`, `"Array"` fails with `UnsupportedColumnType`.  (Names
that merely start with one of those prefixes are not rejected: see the
counterexample `load_data_accepts_unknown_name`.) -/
theorem column_type_dispatch :
    (∀ n₁ n₂ : List Nat, n₁.map to_ascii_lowercase = n₂.map to_ascii_lowercase →
        match_alias n₁ = match_alias n₂) ∧
    (match_alias (str_bytes "UInt8") = some (.vec .u8) ∧
     match_alias (str_bytes "UInt16") = some (.vec .u16) ∧
     match_alias (str_bytes "UInt32") = some (.vec .u32) ∧
     match_alias (str_bytes "UInt64") = some (.vec .u64) ∧
     match_alias (str_bytes "Int8") = some (.vec .i8) ∧
     match_alias (str_bytes "TinyInt") = some (.vec .i8) ∧
     match_alias (str_bytes "Int16") = some (.vec .i16) ∧
     match_alias (str_bytes "SmallInt") = some (.vec .i16) ∧
     match_alias (str_bytes "Int32") = some (.vec .i32) ∧
     match_alias (str_bytes "Int") = some (.vec .i32) ∧
     match_alias (str_bytes "Integer") = some (.vec .i32) ∧
     match_alias (str_bytes "Int64") = some (.vec .i64) ∧
     match_alias (str_bytes "BigInt") = some (.vec .i64) ∧
     match_alias (str_bytes "Float32") = some (.vec .f32) ∧
     match_alias (str_bytes "Float") = some (.vec .f32) ∧
     match_alias (str_bytes "Float64") = some (.vec .f64) ∧
     match_alias (str_bytes "Double") = some (.vec .f64) ∧
     match_alias (str_bytes "Int256") = some (.vec .i256) ∧
     match_alias (str_bytes "String") = some .string ∧
     match_alias (str_bytes "Char") = some .string ∧
     match_alias (str_bytes "Varchar") = some .string ∧
     match_alias (str_bytes "Text") = some .string ∧
     match_alias (str_bytes "TinyText") = some .string ∧
     match_alias (str_bytes "MediumText") = some .string ∧
     match_alias (str_bytes "LongText") = some .string ∧
     match_alias (str_bytes "Blob") = some .string ∧
     match_alias (str_bytes "TinyBlob") = some .string ∧
     match_alias (str_bytes "MediumBlob") = some .string ∧
     match_alias (str_bytes "LongBlob") = some .string) ∧
    (∀ n t, match_alias n = some (.vec t) → load_data n = .ok (.vec t)) ∧
    (∀ n, match_alias n = some .string → load_data n = .ok .string) ∧
    (∀ inner, (str_bytes "Nullable").isPrefixOf inner = false →
        load_data (str_bytes "Nullable(" ++ inner ++ str_bytes ")")
          = (load_data inner).map LoadedCol.nullable) ∧
    (∀ inner, (str_bytes "Nullable").isPrefixOf inner = true →
        load_data (str_bytes "Nullable(" ++ inner ++ str_bytes ")")
          = .error (.unsupportedColumnType
              (str_bytes "Nullable(" ++ inner ++ str_bytes ")"))) ∧
    (∀ inner, load_data (str_bytes "Array(" ++ inner ++ str_bytes ")")
        = (load_data inner).map LoadedCol.array) ∧
    (∀ digits n, parse_usize digits = some n →
        load_data (str_bytes "FixedString(" ++ digits ++ str_bytes ")")
          = .ok (.fixedString n)) ∧
    (∀ tn, match_alias tn = none →
        (str_bytes "Nullable").isPrefixOf tn = false →
        (str_bytes "FixedString").isPrefixOf tn = false →
        (str_bytes "Array").isPrefixOf tn = false →
        load_data tn = .error (.unsupportedColumnType tn)) := by
  refine ⟨match_alias_congr, by decide, ?_, ?_,
    load_data_nullable_general, load_data_nullable_nested, load_data_array_general,
    ?_, load_data_unknown⟩
  · intro n t h
    rw [load_data_eq, h]
  · intro n h
    rw [load_data_eq, h]
  · intro digits n h
    rw [load_data_fixed_string_general, h]

theorem column_type_dispatch_witness :
    load_data (str_bytes "Nullable(" ++ str_bytes "Int8" ++ str_bytes ")")
      = (load_data (str_bytes "Int8")).map LoadedCol.nullable ∧
    load_data (str_bytes "FixedString(" ++ str_bytes "0" ++ str_bytes ")")
      = .ok (.fixedString 0) := by
  obtain ⟨hcongr, hcanon, hvec, hstr, hnul, hnest, harr, hfix, hunk⟩ :=
    column_type_dispatch
  exact ⟨hnul (str_bytes "Int8") (by decide), hfix (str_bytes "0") 0 (by decide)⟩

/-- Counterexample to C5 as stated: `parse_fixed_string` checks only the
11-byte prefix `"FixedString"` but slices from byte 12, so the unknown
type name `"FixedStringg55)"` is accepted as a `FixedString(55)` column
instead of producing `UnsupportedColumnType`. -/
theorem load_data_accepts_unknown_name :
    load_data (str_bytes "FixedStringg55)") = .ok (.fixedString 55) ∧
    ∀ e, load_data (str_bytes "FixedStringg55)") ≠ .error e := by
  have hma : match_alias (str_bytes "FixedStringg55)") = none := by decide
  have hpn : parse_nullable_type (str_bytes "FixedStringg55)") = .ok none := by rfl
  have hfs : parse_fixed_string (str_bytes "FixedStringg55)") = .ok (some 55) := by rfl
  have heq : load_data (str_bytes "FixedStringg55)") = .ok (.fixedString 55) := by
    rw [load_data_eq, hma, hpn, hfs]
  exact ⟨heq, fun e => by rw [heq]; simp⟩

end CHReadonly
